import Mathlib

/-!
Verification of the workflow orchestration engine of the `lenk_automation`
repository.  The definitions below are a shallow embedding of the TypeScript
source: `src/lib/agents/index.ts` (the `AgentEventBus`), `src/lib/agents/
specialized/index.ts` (`SpecializedAgent.handleTask`) and `src/lib/agents/
workflow/index.ts` (the `WorkflowOrchestratorAgent`).  JavaScript `Date`
values are modelled as natural numbers supplied by the caller as a `now`
parameter, `uuidv4` by a counter-indexed id supply, the in-memory `Map` of
workflows by an association list, and in-place object mutation by explicit
state passing (steps are addressed by their position in the step list, which
matches the source's by-object-reference mutation).
-/

/-- Status of a single workflow step, from the `WorkflowStepStatus` enum. -/
inductive WorkflowStepStatus where
  | pending
  | in_progress
  | completed
  | failed
  | skipped
deriving Repr, DecidableEq

/-- Status of a workflow, from the union type on `Workflow.status`
(`'active' | 'paused' | 'completed' | 'failed'`). -/
inductive WorkflowStatus where
  | active
  | paused
  | completed
  | failed
deriving Repr, DecidableEq

/-- Result event consumed by `handleTaskResult`: the fields of `AgentResult`
(`taskId`, `success`, `data`, `error?`, `completedAt`) together with the
optional correlation fields `workflowId?` and `stepId?` that the orchestrator
reads off the published result object.  Data bags are modelled as string
association lists. -/
structure TaskResultEvent where
  taskId : String
  success : Bool
  data : List (String × String)
  error : Option String
  completedAt : Nat
  workflowId : Option String
  stepId : Option String
deriving Repr, DecidableEq

/-- One workflow step, from the `WorkflowStep` interface. -/
structure WorkflowStep where
  id : String
  name : String
  agentType : String
  action : String
  status : WorkflowStepStatus
  config : List (String × String)
  dependsOn : List String
  result : Option TaskResultEvent
deriving Repr, DecidableEq

/-- A workflow, from the `Workflow` interface.  Timestamps are naturals;
`completedAt` is optional exactly as in the source. -/
structure Workflow where
  id : String
  name : String
  description : String
  steps : List WorkflowStep
  data : List (String × String)
  status : WorkflowStatus
  createdAt : Nat
  updatedAt : Nat
  completedAt : Option Nat
deriving Repr, DecidableEq

/-- A dispatched task, from the `AgentTask` interface.  The source puts
`workflowId`, `stepId` and `workflowData` inside the `data` bag next to the
step config; here they are explicit fields of the bag. -/
structure AgentTask where
  id : String
  type : String
  priority : Nat
  config : List (String × String)
  workflowId : String
  stepId : String
  workflowData : List (String × String)
  createdAt : Nat
deriving Repr, DecidableEq

/-- Events the orchestrator publishes on the bus: the `workflow:created`,
`workflow:cancelled` and `workflow:completed` notifications, and the
`task:<agentType>` dispatch events. -/
inductive BusEvent where
  | workflowCreated (workflowId : String)
  | workflowCancelled (workflowId : String)
  | workflowCompleted (workflowId : String) (success : Bool)
  | taskDispatch (agentType : String) (task : AgentTask)
deriving Repr, DecidableEq

/-- The in-memory workflow store (`activeWorkflows : Map<string, Workflow>`),
modelled as an association list in insertion order. -/
abbrev WStore : Type := List (String × Workflow)

/-- Map lookup (`activeWorkflows.get(id)`). -/
def storeGet (st : WStore) (k : String) : Option Workflow :=
  (List.find? (fun p => p.1 == k) st).map (fun p => p.2)

/-- Map insertion (`activeWorkflows.set(id, wf)`): replaces the value at an
existing key in place, otherwise appends, as a JavaScript `Map` does. -/
def storeSet (st : WStore) (k : String) (w : Workflow) : WStore :=
  if (List.find? (fun p => p.1 == k) st).isSome then
    st.map (fun p => if p.1 == k then (k, w) else p)
  else
    st ++ [(k, w)]

/-- The `AgentEventBus` from `src/lib/agents/index.ts`.  The class extends
Node's `EventEmitter`; its listener table maps an event-name string to the
listeners registered under exactly that string.  Listeners are identified by
opaque numeric ids. -/
structure AgentEventBus where
  listeners : List (String × Nat)
deriving Repr, DecidableEq

/-- The bus's `subscribeToEvent(eventName, callback)`, which is
`EventEmitter.on`: append the listener under the given literal event name. -/
def AgentEventBus.subscribeToEvent (bus : AgentEventBus) (eventName : String)
    (handler : Nat) : AgentEventBus :=
  { listeners := bus.listeners ++ [(eventName, handler)] }

/-- The bus's `publishEvent(eventName, data)`, which is `EventEmitter.emit`:
invoke, in registration order, exactly the listeners whose registered event
name equals the emitted name.  `EventEmitter` performs no pattern matching of
any kind on event names.  Returns the ids of the listeners invoked. -/
def AgentEventBus.publishEvent (bus : AgentEventBus) (eventName : String) :
    List Nat :=
  (bus.listeners.filter (fun p => p.1 == eventName)).map (fun p => p.2)

/-- The empty bus. -/
def emptyBus : AgentEventBus := { listeners := [] }

/-- Replace the element at position `i` by `f` of it (identity off-range).
Models in-place mutation of one step object held in the workflow's step
list: the source mutates the object found there by reference. -/
def listModify {α : Type} (f : α → α) : Nat → List α → List α
  | _, [] => []
  | 0, a :: l => f a :: l
  | n + 1, a :: l => a :: listModify f n l

/-- Positions, counted from `n`, of the elements of `l` satisfying `p`. -/
def idxWhereAux {α : Type} (p : α → Bool) : Nat → List α → List Nat
  | _, [] => []
  | n, a :: l =>
    if p a then n :: idxWhereAux p (n + 1) l else idxWhereAux p (n + 1) l

/-- Positions of the elements of `l` satisfying `p`, in order.  Models the
source's `steps.filter(...)` followed by iteration over the captured step
object references. -/
def idxWhere {α : Type} (p : α → Bool) (l : List α) : List Nat :=
  idxWhereAux p 0 l

/-- Assign a new status to the step at position `i`
(the source's `step.status = ...` mutation). -/
def setStepStatus (wf : Workflow) (i : Nat) (st : WorkflowStepStatus) :
    Workflow :=
  { wf with steps := listModify (fun s => { s with status := st }) i wf.steps }

/-- `areStepDependenciesMet(workflow, step)`: true when `dependsOn` is empty,
otherwise every dependency id must `find` a step of the same workflow whose
status is completed. -/
def areStepDependenciesMet (wf : Workflow) (step : WorkflowStep) : Bool :=
  if step.dependsOn.length == 0 then true
  else
    step.dependsOn.all (fun depId =>
      match wf.steps.find? (fun s => s.id == depId) with
      | some dep => decide (dep.status = WorkflowStepStatus.completed)
      | none => false)

/-- The task object built inside `executeWorkflowStep`: a fresh uuid
(modelled by the counter `tid`), the step's action as the task type,
priority 1, and the step config merged with the correlation ids and the
workflow data. -/
def mkTask (tid now : Nat) (wf : Workflow) (step : WorkflowStep) : AgentTask :=
  { id := "task-" ++ toString tid
    type := step.action
    priority := 1
    config := step.config
    workflowId := wf.id
    stepId := step.id
    workflowData := wf.data
    createdAt := now }

/-- `executeWorkflowStep(workflow, step)` with the step addressed by its
position `i`.  Returns the updated workflow and the published events: a
no-op unless the workflow is active and the step's dependencies are met;
then the step becomes in_progress and, if an agent is registered for its
type (`reg` models the keys of the `agents` map), one `task:<agentType>`
dispatch is published, otherwise the step is marked failed and nothing is
dispatched. -/
def executeWorkflowStep (reg : List String) (now tid : Nat) (wf : Workflow)
    (i : Nat) : Workflow × List BusEvent :=
  match wf.steps[i]? with
  | none => (wf, [])
  | some step =>
    if wf.status ≠ WorkflowStatus.active then (wf, [])
    else if areStepDependenciesMet wf step then
      if reg.contains step.agentType then
        (setStepStatus wf i WorkflowStepStatus.in_progress,
          [BusEvent.taskDispatch step.agentType (mkTask tid now wf step)])
      else
        (setStepStatus (setStepStatus wf i WorkflowStepStatus.in_progress) i
          WorkflowStepStatus.failed, [])
    else (wf, [])

/-- Run `executeWorkflowStep` over a list of step positions, threading the
evolving workflow and the task-id counter and concatenating the published
events: the `for (const step of steps) await this.executeWorkflowStep(...)`
loops of the source. -/
def runSteps (reg : List String) (now : Nat) :
    List Nat → Workflow → Nat → Workflow × Nat × List BusEvent
  | [], wf, tid => (wf, tid, [])
  | i :: rest, wf, tid =>
    let r1 := executeWorkflowStep reg now tid wf i
    let r2 := runSteps reg now rest r1.1 (tid + 1)
    (r2.1, r2.2.1, r1.2 ++ r2.2.2)

/-- Step part of the definition payload accepted by `createWorkflow`. -/
structure StepDef where
  id : Option String
  name : String
  agentType : String
  action : String
  config : List (String × String)
  dependsOn : List String
deriving Repr, DecidableEq

/-- Workflow definition payload accepted by `createWorkflow`. -/
structure WorkflowDef where
  id : Option String
  name : String
  description : String
  steps : List StepDef
  data : List (String × String)
deriving Repr, DecidableEq

/-- Materialize one step of a definition: keep a supplied id or draw a fresh
uuid, default the config and dependency list, and start pending. -/
def mkStep (fresh : Nat → String) (i : Nat) (sd : StepDef) : WorkflowStep :=
  { id := sd.id.getD (fresh (i + 1))
    name := sd.name
    agentType := sd.agentType
    action := sd.action
    status := WorkflowStepStatus.pending
    config := sd.config
    dependsOn := sd.dependsOn
    result := none }

/-- `createWorkflow(data)`: build the workflow (every step pending, status
active, `completedAt` unset), store it under its id, and publish a
`workflow:created` notification.  `fresh` models `uuidv4()`. -/
def createWorkflow (fresh : Nat → String) (now : Nat) (st : WStore)
    (d : WorkflowDef) : WStore × List BusEvent :=
  let wid := d.id.getD (fresh 0)
  let wf : Workflow :=
    { id := wid
      name := d.name
      description := d.description
      steps := (d.steps.enum).map (fun x => mkStep fresh x.1 x.2)
      data := d.data
      status := WorkflowStatus.active
      createdAt := now
      updatedAt := now
      completedAt := none }
  (storeSet st wid wf, [BusEvent.workflowCreated wid])

/-- Error message thrown for an unknown workflow id. -/
def workflowNotFound (wid : String) : String :=
  "Workflow not found: " ++ wid

/-- `startWorkflow({workflowId})`: throws (modelled as `Except.error`) when
the id is unknown; otherwise sets the workflow active and executes every
step whose `dependsOn` is empty, in declaration order. -/
def startWorkflow (reg : List String) (now tid : Nat) (st : WStore)
    (wid : String) : Except String (WStore × List BusEvent) :=
  match storeGet st wid with
  | none => Except.error (workflowNotFound wid)
  | some wf =>
    let wf1 : Workflow :=
      { wf with status := WorkflowStatus.active, updatedAt := now }
    let idxs := idxWhere (fun s => s.dependsOn.length == 0) wf1.steps
    let r := runSteps reg now idxs wf1 tid
    Except.ok (storeSet st wid r.1, r.2.2)

/-- `pauseWorkflow({workflowId})`: throws when the id is unknown; otherwise
sets the status to paused. -/
def pauseWorkflow (now : Nat) (st : WStore) (wid : String) :
    Except String (WStore × List BusEvent) :=
  match storeGet st wid with
  | none => Except.error (workflowNotFound wid)
  | some wf =>
    Except.ok
      (storeSet st wid { wf with status := WorkflowStatus.paused, updatedAt := now }, [])

/-- `resumeWorkflow({workflowId})`: throws when the id is unknown; otherwise
sets the status to active unconditionally and executes every pending step
whose dependencies are met. -/
def resumeWorkflow (reg : List String) (now tid : Nat) (st : WStore)
    (wid : String) : Except String (WStore × List BusEvent) :=
  match storeGet st wid with
  | none => Except.error (workflowNotFound wid)
  | some wf =>
    let wf1 : Workflow :=
      { wf with status := WorkflowStatus.active, updatedAt := now }
    let idxs := idxWhere
      (fun s =>
        decide (s.status = WorkflowStepStatus.pending)
          && areStepDependenciesMet wf1 s)
      wf1.steps
    let r := runSteps reg now idxs wf1 tid
    Except.ok (storeSet st wid r.1, r.2.2)

/-- First pass of `cancelWorkflow` over the steps: every in_progress step
becomes failed. -/
def cancelStepPass1 (s : WorkflowStep) : WorkflowStep :=
  if s.status = WorkflowStepStatus.in_progress then
    { s with status := WorkflowStepStatus.failed }
  else s

/-- Second pass of `cancelWorkflow` over the steps: every pending step
becomes skipped. -/
def cancelStepPass2 (s : WorkflowStep) : WorkflowStep :=
  if s.status = WorkflowStepStatus.pending then
    { s with status := WorkflowStepStatus.skipped }
  else s

/-- `cancelWorkflow({workflowId})`: throws when the id is unknown; otherwise
sets status failed, stamps `completedAt`, applies the two step passes and
publishes a `workflow:cancelled` notification. -/
def cancelWorkflow (now : Nat) (st : WStore) (wid : String) :
    Except String (WStore × List BusEvent) :=
  match storeGet st wid with
  | none => Except.error (workflowNotFound wid)
  | some wf =>
    let wf1 : Workflow :=
      { wf with
        status := WorkflowStatus.failed
        updatedAt := now
        completedAt := some now
        steps := (wf.steps.map cancelStepPass1).map cancelStepPass2 }
    Except.ok (storeSet st wid wf1, [BusEvent.workflowCancelled wf.id])

/-- Terminal step statuses, from the `allStepsCompleted` check of
`handleTaskResult`. -/
def isTerminalStep (s : WorkflowStepStatus) : Bool :=
  decide (s = WorkflowStepStatus.completed)
    || decide (s = WorkflowStepStatus.failed)
    || decide (s = WorkflowStepStatus.skipped)

/-- Position of the first step whose id is `sid`, modelling the source's
`workflow.steps.find((s) => s.id === result.stepId)` (the found object,
addressed here by its position). -/
def findStepIdx (sid : String) : List WorkflowStep → Option Nat
  | [] => none
  | s :: l =>
    if s.id == sid then some 0 else (findStepIdx sid l).map (fun n => n + 1)

/-- `handleTaskResult(result)`: ignore results without both correlation ids,
with an unknown workflow id, or whose step id matches no step.  Otherwise
set the matched step's status from the success flag and attach the result;
on success run the dependent-step fan-out; finally, if every step is
terminal, set the workflow status from the presence of a failed step, stamp
`completedAt`, and publish `workflow:completed`. -/
def handleTaskResult (reg : List String) (now tid : Nat) (st : WStore)
    (r : TaskResultEvent) : WStore × List BusEvent :=
  match r.workflowId, r.stepId with
  | some wid, some sid =>
    (match storeGet st wid with
     | none => (st, [])
     | some wf =>
       match findStepIdx sid wf.steps with
       | none => (st, [])
       | some i =>
         let newStatus :=
           if r.success then WorkflowStepStatus.completed
           else WorkflowStepStatus.failed
         let upd := fun s => { s with status := newStatus, result := some r }
         let wf1 : Workflow := { wf with steps := listModify upd i wf.steps }
         let fanned :=
           if r.success then
             runSteps reg now
               (idxWhere
                 (fun s => s.dependsOn.contains sid
                   && decide (s.status = WorkflowStepStatus.pending))
                 wf1.steps)
               wf1 tid
           else (wf1, tid, [])
         let wf2 := fanned.1
         let evs := fanned.2.2
         if wf2.steps.all (fun s => isTerminalStep s.status) then
           let anyFailed :=
             wf2.steps.any (fun s => decide (s.status = WorkflowStepStatus.failed))
           let wf3 : Workflow :=
             { wf2 with
               status :=
                 if anyFailed then WorkflowStatus.failed
                 else WorkflowStatus.completed,
               completedAt := some now, updatedAt := now }
           (storeSet st wid wf3, evs ++ [BusEvent.workflowCompleted wf.id (!anyFailed)])
         else (storeSet st wid wf2, evs))
  | _, _ => (st, [])

/-- `SpecializedAgent.handleTask(task)`: run `execute`; on success publish
the result to `result:<taskId>`, on a thrown error publish, to the same
topic, a failed result carrying the error message.  The return value lists
the (topic, payload) publishes performed. -/
def handleTask (exec : AgentTask → Except String TaskResultEvent) (now : Nat)
    (task : AgentTask) : List (String × TaskResultEvent) :=
  match exec task with
  | Except.ok res => [("result:" ++ task.id, res)]
  | Except.error e =>
    [("result:" ++ task.id,
      { taskId := task.id, success := false, data := [], error := some e,
        completedAt := now, workflowId := none, stepId := none })]

/-- Outcome reported to the caller at the orchestrator's `execute` boundary,
whose try/catch converts a thrown error into a failed `AgentResult`. -/
structure OpOutcome where
  success : Bool
  error : Option String
deriving Repr, DecidableEq

/-- The orchestrator's `execute` try/catch boundary applied to a lifecycle
operation: a thrown error (`Except.error`) is caught and reported as a
failed outcome, with the store left as it was. -/
def runLifecycleOp (op : WStore → Except String (WStore × List BusEvent))
    (st : WStore) : WStore × List BusEvent × OpOutcome :=
  match op st with
  | Except.ok pr => (pr.1, pr.2, { success := true, error := none })
  | Except.error e => (st, [], { success := false, error := some e })

/-- The identifying fields of a step that no orchestrator operation ever
rewrites: id, agent type and dependency list (operations only touch
`status` and `result`). -/
def stepKey (s : WorkflowStep) : String × String × List String :=
  (s.id, s.agentType, s.dependsOn)

/-- Id of the step at position `i`, read through `stepKey` (empty string
off-range). -/
def stepIdAt (wf : Workflow) (i : Nat) : String :=
  (((wf.steps[i]?).map stepKey).map (fun k => k.1)).getD ""

/-- Step ids of the task-dispatch events in a published event list, in
publish order. -/
def dispatchedStepIds (evs : List BusEvent) : List String :=
  evs.filterMap (fun e =>
    match e with
    | BusEvent.taskDispatch _ t => some t.stepId
    | BusEvent.workflowCreated _ => none
    | BusEvent.workflowCancelled _ => none
    | BusEvent.workflowCompleted _ _ => none)

/-- Workflow data-model invariant claimed by the spec: `completedAt` is set
if and only if the status is completed or failed. -/
def completedAtConsistent (wf : Workflow) : Prop :=
  wf.completedAt.isSome
    ↔ (wf.status = WorkflowStatus.completed ∨ wf.status = WorkflowStatus.failed)

/-- The `completedAt` invariant, for every workflow in the store. -/
def storeInv (st : WStore) : Prop :=
  ∀ p ∈ st, completedAtConsistent p.2

/-- Test-fixture step. -/
def mkFixStep (id : String) (st : WorkflowStepStatus) (deps : List String)
    (ty : String) : WorkflowStep :=
  { id := id, name := id, agentType := ty, action := "act", status := st,
    config := [], dependsOn := deps, result := none }

/-- Test-fixture workflow. -/
def fixWorkflow (id : String) (steps : List WorkflowStep)
    (st : WorkflowStatus) (ca : Option Nat) : Workflow :=
  { id := id, name := "W", description := "d", steps := steps, data := [],
    status := st, createdAt := 0, updatedAt := 0, completedAt := ca }

/-- Fixture for the cancellation claims: one active workflow `w1` with a
single pending step `s1`. -/
def c2wf : Workflow :=
  fixWorkflow "w1" [mkFixStep "s1" WorkflowStepStatus.pending [] "document"]
    WorkflowStatus.active none

/-- Store holding only `c2wf`. -/
def c2store0 : WStore := [("w1", c2wf)]

/-- The store after cancelling `w1` at time 1. -/
def c2store1 : WStore :=
  match cancelWorkflow 1 c2store0 "w1" with
  | Except.ok pr => pr.1
  | Except.error _ => []

/-- The store after then resuming the cancelled `w1` at time 2. -/
def c2store2 : WStore :=
  match resumeWorkflow [] 2 0 c2store1 "w1" with
  | Except.ok pr => pr.1
  | Except.error _ => []

/-- A late successful result for step `s1` of `w1`. -/
def c2res : TaskResultEvent :=
  { taskId := "t1", success := true, data := [], error := none,
    completedAt := 3, workflowId := some "w1", stepId := some "s1" }

/-- The store after the cancelled `w1` receives the late result `c2res`. -/
def c2store3 : WStore := (handleTaskResult [] 3 0 c2store1 c2res).1

/-- Fixture for the `completedAt` invariant claim: an active workflow with
no steps. -/
def c3wf : Workflow := fixWorkflow "w1" [] WorkflowStatus.active none

/-- Store holding only `c3wf`. -/
def c3store0 : WStore := [("w1", c3wf)]

/-- The store after cancelling `c3wf` at time 1. -/
def c3store1 : WStore :=
  match cancelWorkflow 1 c3store0 "w1" with
  | Except.ok pr => pr.1
  | Except.error _ => []

/-- The store after then resuming the cancelled workflow at time 2. -/
def c3store2 : WStore :=
  match resumeWorkflow [] 2 0 c3store1 "w1" with
  | Except.ok pr => pr.1
  | Except.error _ => []

/-- Fixture for the `completedAt` preservation witness: an active workflow
with one pending step. -/
def c3awf : Workflow :=
  fixWorkflow "w3" [mkFixStep "s1" WorkflowStepStatus.pending [] "document"]
    WorkflowStatus.active none

/-- Store holding only `c3awf`. -/
def c3astore : WStore := [("w3", c3awf)]

/-- A definition payload used by the `completedAt` preservation witness. -/
def c3adef : WorkflowDef :=
  { id := some "w3b", name := "N", description := "", steps := [], data := [] }

/-- A successful result for step `s1` of `w3`. -/
def c3ares : TaskResultEvent :=
  { taskId := "t", success := true, data := [], error := none,
    completedAt := 4, workflowId := some "w3", stepId := some "s1" }

/-- Fixture for the dependency-gating witness: step `A` completed, step `B`
pending with `dependsOn = [A]`. -/
def c4wf : Workflow :=
  fixWorkflow "w4"
    [mkFixStep "A" WorkflowStepStatus.completed [] "document",
     mkFixStep "B" WorkflowStepStatus.pending ["A"] "document"]
    WorkflowStatus.active none

/-- Fixture for the cancellation-effect witness: one in_progress step and
two pending steps. -/
def c5wf : Workflow :=
  fixWorkflow "w5"
    [mkFixStep "a" WorkflowStepStatus.in_progress [] "document",
     mkFixStep "b" WorkflowStepStatus.pending [] "billing",
     mkFixStep "c" WorkflowStepStatus.pending ["a"] "document"]
    WorkflowStatus.active none

/-- Store holding only `c5wf`. -/
def c5store : WStore := [("w5", c5wf)]

/-- Fixture for the start-dispatch witness: steps `sa` (no deps), `sb`
(depends on `sa`) and `sc` (no deps). -/
def c9wf : Workflow :=
  fixWorkflow "w9"
    [mkFixStep "sa" WorkflowStepStatus.pending [] "document",
     mkFixStep "sb" WorkflowStepStatus.pending ["sa"] "billing",
     mkFixStep "sc" WorkflowStepStatus.pending [] "billing"]
    WorkflowStatus.active none

/-- Store holding only `c9wf`. -/
def c9store : WStore := [("w9", c9wf)]

/-- Fixture for the duplicate-result claim: a completed workflow whose only
step is already completed. -/
def c10wf : Workflow :=
  fixWorkflow "wa" [mkFixStep "s1" WorkflowStepStatus.completed [] "document"]
    WorkflowStatus.completed (some 5)

/-- Store holding only `c10wf`. -/
def c10store : WStore := [("wa", c10wf)]

/-- A late failed (duplicate) result for the already-completed step `s1`. -/
def c10res : TaskResultEvent :=
  { taskId := "t2", success := false, data := [], error := some "boom",
    completedAt := 9, workflowId := some "wa", stepId := some "s1" }

/-- A result event with no workflow correlation, for the no-op witness. -/
def c8res : TaskResultEvent :=
  { taskId := "t3", success := true, data := [], error := none,
    completedAt := 1, workflowId := none, stepId := none }

/-- C1: the orchestrator subscribes to the literal topic string
`result:*` expecting wildcard delivery of every `result:<taskId>` publish.
`AgentEventBus` is a plain `EventEmitter`, which matches event names exactly,
so the subscriber registered under `result:*` is never invoked when a handler
publishes to a task-correlated topic such as `result:task-1`; it would only
fire for an event emitted under the literal name `result:*`.  The claimed
wildcard delivery therefore does not happen. -/
theorem resultWildcardSubscriberNotInvoked :
    AgentEventBus.publishEvent
      (AgentEventBus.subscribeToEvent emptyBus "result:*" 0) "result:task-1"
      = []
    ∧ AgentEventBus.publishEvent
      (AgentEventBus.subscribeToEvent emptyBus "result:*" 0) "result:*"
      = [0] := by
  constructor
  · rfl
  · rfl

/-- Modifying position `i` leaves every other position unchanged and maps
position `i` through `f`. -/
theorem listModify_getElem? {α : Type} (f : α → α) :
    ∀ (i j : Nat) (l : List α),
      (listModify f i l)[j]? = if i = j then (l[j]?).map f else l[j]?
  | i, j, [] => by cases i <;> cases j <;> simp [listModify]
  | 0, 0, a :: t => by simp [listModify]
  | 0, j + 1, a :: t => by simp [listModify]
  | i + 1, 0, a :: t => by simp [listModify]
  | i + 1, j + 1, a :: t => by
    simp only [listModify, List.getElem?_cons_succ]
    rw [listModify_getElem? f i j t]
    by_cases h : i = j <;> simp [h]

/-- Looking up the key just stored returns the stored workflow. -/
theorem storeGet_storeSet_self (k : String) (w : Workflow) :
    ∀ st : WStore, storeGet (storeSet st k w) k = some w := by
  intro st
  induction st with
  | nil => simp [storeGet, storeSet, List.find?]
  | cons a t ih =>
    by_cases h : a.1 == k
    · have hfind : List.find? (fun p => p.1 == k) (a :: t) = some a := by
        simp [List.find?_cons, h]
      have heq : a.1 = k := by simpa using h
      have hset : storeSet (a :: t) k w
          = (k, w) :: t.map (fun p => if p.1 == k then (k, w) else p) := by
        simp [storeSet, hfind, h, heq]
      rw [hset]
      simp [storeGet, List.find?_cons]
    · have hne : ¬ a.1 = k := by simpa using h
      have hset : storeSet (a :: t) k w = a :: storeSet t k w := by
        by_cases h2 : (List.find? (fun p => p.1 == k) t).isSome
        · simp [storeSet, List.find?_cons, h, h2, hne]
        · simp [storeSet, List.find?_cons, h, h2, hne]
      rw [hset]
      simpa [storeGet, List.find?_cons, h] using ih

/-- A pair of the store after `storeSet` is the stored pair or an original
pair. -/
theorem mem_storeSet (st : WStore) (k : String) (w : Workflow)
    (p : String × Workflow) (h : p ∈ storeSet st k w) :
    p = (k, w) ∨ p ∈ st := by
  unfold storeSet at h
  by_cases hf : (List.find? (fun q => q.1 == k) st).isSome
  · rw [if_pos hf] at h
    rcases List.mem_map.mp h with ⟨q, hq, hqe⟩
    by_cases hqk : q.1 == k
    · left
      rw [if_pos hqk] at hqe
      exact hqe.symm
    · right
      rw [if_neg hqk] at hqe
      exact hqe ▸ hq
  · rw [if_neg hf] at h
    rcases List.mem_append.mp h with h1 | h1
    · exact Or.inr h1
    · left
      simpa using h1

/-- A successful lookup exhibits a member pair of the store. -/
theorem storeGet_mem (st : WStore) (k : String) (w : Workflow)
    (h : storeGet st k = some w) : (k, w) ∈ st := by
  unfold storeGet at h
  rcases Option.map_eq_some'.mp h with ⟨p, hp, hpe⟩
  have hmem := List.mem_of_find?_eq_some hp
  have hk : p.1 = k := by
    have := List.find?_some hp
    simpa using this
  have hpkw : p = (k, w) := by
    cases p
    simp_all
  exact hpkw ▸ hmem

/-- When no step has id `sid`, `findStepIdx` finds nothing. -/
theorem findStepIdx_eq_none (sid : String) :
    ∀ l : List WorkflowStep, (∀ s ∈ l, s.id ≠ sid) → findStepIdx sid l = none
  | [], _ => rfl
  | s :: l, h => by
    have hs : ¬ s.id == sid := by
      simpa using h s (List.mem_cons_self s l)
    have := findStepIdx_eq_none sid l (fun a ha => h a (List.mem_cons_of_mem s ha))
    simp [findStepIdx, hs, this]

/-- A found position is in range and carries a step with the searched id. -/
theorem findStepIdx_some (sid : String) :
    ∀ (l : List WorkflowStep) (i : Nat), findStepIdx sid l = some i →
      ∃ s, l[i]? = some s ∧ s.id = sid
  | [], i, h => by simp [findStepIdx] at h
  | s :: l, i, h => by
    by_cases hs : s.id == sid
    · have : i = 0 := by
        simp [findStepIdx, hs] at h
        omega
      subst this
      exact ⟨s, by simp, by simpa using hs⟩
    · simp only [findStepIdx, hs, if_neg, Bool.false_eq_true, ite_false] at h
      rcases Option.map_eq_some'.mp h with ⟨j, hj, hji⟩
      rcases findStepIdx_some sid l j hj with ⟨t, ht, hts⟩
      subst hji
      exact ⟨t, by simpa using ht, hts⟩

/-- Unfolding of `areStepDependenciesMet = true`: every dependency id names
a step of the workflow whose status is completed. -/
theorem areStepDependenciesMet_spec (wf : Workflow) (step : WorkflowStep)
    (h : areStepDependenciesMet wf step = true) :
    ∀ d ∈ step.dependsOn,
      ∃ t, t ∈ wf.steps ∧ t.id = d ∧ t.status = WorkflowStepStatus.completed := by
  intro d hd
  unfold areStepDependenciesMet at h
  by_cases hlen : step.dependsOn.length == 0
  · have : step.dependsOn = [] := by
      simpa using List.length_eq_zero.mp (by simpa using hlen)
    rw [this] at hd
    exact absurd hd (List.not_mem_nil d)
  · rw [if_neg hlen] at h
    have hall := List.all_eq_true.mp h d hd
    cases hfind : wf.steps.find? (fun s => s.id == d) with
    | none => rw [hfind] at hall; simp at hall
    | some t =>
      rw [hfind] at hall
      refine ⟨t, List.mem_of_find?_eq_some hfind, ?_, of_decide_eq_true hall⟩
      have := List.find?_some hfind
      simpa using this

/-- `areStepDependenciesMet` holds trivially for a step without
dependencies. -/
theorem areStepDependenciesMet_nil (wf : Workflow) (step : WorkflowStep)
    (h : step.dependsOn = []) : areStepDependenciesMet wf step = true := by
  unfold areStepDependenciesMet
  simp [h]

/-- A position produced by `idxWhereAux p n l` is at least `n` and indexes,
relative to `n`, an element of `l` satisfying `p`. -/
theorem idxWhereAux_mem {α : Type} (p : α → Bool) :
    ∀ (l : List α) (n j : Nat), j ∈ idxWhereAux p n l →
      n ≤ j ∧ ∃ a, l[j - n]? = some a ∧ p a = true
  | [], n, j, h => by simp [idxWhereAux] at h
  | a :: l, n, j, h => by
    by_cases hp : p a
    · rw [idxWhereAux, if_pos hp] at h
      rcases List.mem_cons.mp h with h1 | h1
      · subst h1
        exact ⟨Nat.le_refl j, a, by simp [Nat.sub_self], hp⟩
      · rcases idxWhereAux_mem p l (n + 1) j h1 with ⟨hle, b, hb, hpb⟩
        refine ⟨Nat.le_of_succ_le hle, b, ?_, hpb⟩
        have hsub : j - n = (j - (n + 1)) + 1 := by omega
        rw [hsub, List.getElem?_cons_succ]
        exact hb
    · rw [idxWhereAux, if_neg hp] at h
      rcases idxWhereAux_mem p l (n + 1) j h with ⟨hle, b, hb, hpb⟩
      refine ⟨Nat.le_of_succ_le hle, b, ?_, hpb⟩
      have hsub : j - n = (j - (n + 1)) + 1 := by omega
      rw [hsub, List.getElem?_cons_succ]
      exact hb

/-- A position produced by `idxWhere p l` indexes an element of `l`
satisfying `p`. -/
theorem idxWhere_mem {α : Type} (p : α → Bool) (l : List α) (j : Nat)
    (h : j ∈ idxWhere p l) : ∃ a, l[j]? = some a ∧ p a = true := by
  rcases idxWhereAux_mem p l 0 j h with ⟨_, b, hb, hpb⟩
  exact ⟨b, by simpa using hb, hpb⟩

/-- Reading the positions collected by `idxWhereAux p n l` through a list
`L` that agrees with `l` from offset `n` on recovers the filtered map. -/
theorem idxWhereAux_map_lookup {α β : Type} (p : α → Bool) (g : α → β) (d : β) :
    ∀ (l : List α) (n : Nat) (L : List α), (∀ k, L[n + k]? = l[k]?) →
      (idxWhereAux p n l).map (fun i => ((L[i]?).map g).getD d)
        = (l.filter p).map g
  | [], n, L, _ => by simp [idxWhereAux]
  | a :: l, n, L, hL => by
    have hLn : L[n]? = some a := by
      have := hL 0
      simpa using this
    have hL2 : ∀ k, L[(n + 1) + k]? = l[k]? := by
      intro k
      have := hL (k + 1)
      have harith : n + (k + 1) = (n + 1) + k := by omega
      rw [harith] at this
      simpa using this
    by_cases hp : p a
    · rw [idxWhereAux, if_pos hp]
      rw [List.map_cons]
      rw [idxWhereAux_map_lookup p g d l (n + 1) L hL2]
      simp [List.filter_cons, hp, hLn]
    · rw [idxWhereAux, if_neg hp]
      rw [idxWhereAux_map_lookup p g d l (n + 1) L hL2]
      simp [List.filter_cons, hp]

/-- Reading the positions collected by `idxWhere p l` through `l` itself
recovers the filtered map. -/
theorem idxWhere_map_lookup {α β : Type} (p : α → Bool) (g : α → β) (d : β)
    (l : List α) :
    (idxWhere p l).map (fun i => ((l[i]?).map g).getD d) = (l.filter p).map g := by
  exact idxWhereAux_map_lookup p g d l 0 l (fun k => by simp)

/-- `setStepStatus` only rewrites the status of the addressed step. -/
theorem setStepStatus_preserves (wf : Workflow) (i : Nat)
    (stt : WorkflowStepStatus) :
    (setStepStatus wf i stt).status = wf.status
    ∧ (setStepStatus wf i stt).completedAt = wf.completedAt
    ∧ ∀ j : Nat, ((setStepStatus wf i stt).steps[j]?).map stepKey
        = (wf.steps[j]?).map stepKey := by
  refine ⟨rfl, rfl, fun j => ?_⟩
  show ((listModify (fun s : WorkflowStep => { s with status := stt }) i wf.steps)[j]?).map stepKey
    = (wf.steps[j]?).map stepKey
  rw [listModify_getElem? (fun s : WorkflowStep => { s with status := stt }) i j wf.steps]
  by_cases hij : i = j
  · rw [if_pos hij]
    cases wf.steps[j]? <;> simp [stepKey]
  · rw [if_neg hij]

/-- Two modifications at the same position compose. -/
theorem listModify_listModify {α : Type} (f g : α → α) :
    ∀ (i : Nat) (l : List α),
      listModify g i (listModify f i l) = listModify (fun a => g (f a)) i l
  | i, [] => by cases i <;> rfl
  | 0, a :: t => rfl
  | i + 1, a :: t => by
    simp [listModify, listModify_listModify f g i t]

/-- Overwriting a step's status twice keeps only the second write. -/
theorem setStepStatus_setStepStatus (wf : Workflow) (i : Nat)
    (a b : WorkflowStepStatus) :
    setStepStatus (setStepStatus wf i a) i b = setStepStatus wf i b := by
  simp only [setStepStatus]
  rw [listModify_listModify]

/-- The workflow returned by `executeWorkflowStep` is the input workflow,
or the input with the addressed step set to in_progress (dispatch path), or
set to failed (missing-handler path). -/
theorem executeWorkflowStep_result (reg : List String) (now tid : Nat)
    (wf : Workflow) (i : Nat) :
    (executeWorkflowStep reg now tid wf i).1 = wf
    ∨ (executeWorkflowStep reg now tid wf i).1
        = setStepStatus wf i WorkflowStepStatus.in_progress
    ∨ (executeWorkflowStep reg now tid wf i).1
        = setStepStatus wf i WorkflowStepStatus.failed := by
  unfold executeWorkflowStep
  split
  · exact Or.inl rfl
  · split
    · exact Or.inl rfl
    · split
      · split
        · exact Or.inr (Or.inl rfl)
        · exact Or.inr (Or.inr (setStepStatus_setStepStatus wf i _ _))
      · exact Or.inl rfl

/-- `executeWorkflowStep` never changes the workflow status, `completedAt`,
or any step's identifying fields. -/
theorem executeWorkflowStep_preserves (reg : List String) (now tid : Nat)
    (wf : Workflow) (i : Nat) :
    ((executeWorkflowStep reg now tid wf i).1).status = wf.status
    ∧ ((executeWorkflowStep reg now tid wf i).1).completedAt = wf.completedAt
    ∧ ∀ j : Nat, (((executeWorkflowStep reg now tid wf i).1).steps[j]?).map stepKey
        = (wf.steps[j]?).map stepKey := by
  rcases executeWorkflowStep_result reg now tid wf i with he | he | he <;> rw [he]
  · exact ⟨rfl, rfl, fun j => rfl⟩
  · exact setStepStatus_preserves wf i _
  · exact setStepStatus_preserves wf i _

/-- `executeWorkflowStep` leaves every step other than the addressed one
untouched. -/
theorem executeWorkflowStep_getElem?_ne (reg : List String) (now tid : Nat)
    (wf : Workflow) (i j : Nat) (h : i ≠ j) :
    ((executeWorkflowStep reg now tid wf i).1).steps[j]? = wf.steps[j]? := by
  have hset : ∀ stt : WorkflowStepStatus,
      (setStepStatus wf i stt).steps[j]? = wf.steps[j]? := by
    intro stt
    show (listModify (fun s : WorkflowStep => { s with status := stt }) i wf.steps)[j]?
      = wf.steps[j]?
    rw [listModify_getElem? (fun s : WorkflowStep => { s with status := stt }) i j wf.steps,
      if_neg h]
  rcases executeWorkflowStep_result reg now tid wf i with he | he | he <;> rw [he]
  · exact hset _
  · exact hset _

/-- `runSteps` never changes the workflow status, `completedAt`, or any
step's identifying fields. -/
theorem runSteps_preserves (reg : List String) (now : Nat) :
    ∀ (idxs : List Nat) (wf : Workflow) (tid : Nat),
      ((runSteps reg now idxs wf tid).1).status = wf.status
      ∧ ((runSteps reg now idxs wf tid).1).completedAt = wf.completedAt
      ∧ ∀ j : Nat, (((runSteps reg now idxs wf tid).1).steps[j]?).map stepKey
          = (wf.steps[j]?).map stepKey
  | [], wf, tid => ⟨rfl, rfl, fun _ => rfl⟩
  | i :: rest, wf, tid => by
    have h1 := executeWorkflowStep_preserves reg now tid wf i
    have h2 := runSteps_preserves reg now rest
      (executeWorkflowStep reg now tid wf i).1 (tid + 1)
    have hfst : (runSteps reg now (i :: rest) wf tid).1
        = (runSteps reg now rest (executeWorkflowStep reg now tid wf i).1 (tid + 1)).1 := rfl
    rw [hfst]
    exact ⟨h2.1.trans h1.1, (h2.2.1).trans h1.2.1,
      fun j => (h2.2.2 j).trans (h1.2.2 j)⟩

/-- `runSteps` leaves every step whose position is not in the run list
untouched. -/
theorem runSteps_getElem?_not_mem (reg : List String) (now : Nat) :
    ∀ (idxs : List Nat) (wf : Workflow) (tid j : Nat), j ∉ idxs →
      ((runSteps reg now idxs wf tid).1).steps[j]? = wf.steps[j]?
  | [], _, _, _, _ => rfl
  | i :: rest, wf, tid, j, h => by
    have hij : i ≠ j := fun he => h (he ▸ List.mem_cons_self i rest)
    have hrest : j ∉ rest := fun hm => h (List.mem_cons_of_mem i hm)
    have h2 := runSteps_getElem?_not_mem reg now rest
      (executeWorkflowStep reg now tid wf i).1 (tid + 1) j hrest
    have hfst : (runSteps reg now (i :: rest) wf tid).1
        = (runSteps reg now rest (executeWorkflowStep reg now tid wf i).1 (tid + 1)).1 := rfl
    rw [hfst, h2, executeWorkflowStep_getElem?_ne reg now tid wf i j hij]

/-- C5: cancelling a stored workflow sets status failed, stamps the
completion timestamp, turns every in_progress step failed and every pending
step skipped, leaves all other steps (in particular completed ones)
unchanged, and publishes exactly one `workflow:cancelled` notification. -/
theorem cancelWorkflowSpec (now : Nat) (st : WStore) (wid : String)
    (wf : Workflow) (hwf : storeGet st wid = some wf) :
    ∃ wf1,
      cancelWorkflow now st wid
        = Except.ok (storeSet st wid wf1, [BusEvent.workflowCancelled wf.id])
      ∧ wf1.status = WorkflowStatus.failed
      ∧ wf1.completedAt = some now
      ∧ (∀ j : Nat, ∀ s : WorkflowStep, wf.steps[j]? = some s →
          (s.status = WorkflowStepStatus.in_progress →
            wf1.steps[j]? = some { s with status := WorkflowStepStatus.failed })
          ∧ (s.status = WorkflowStepStatus.pending →
            wf1.steps[j]? = some { s with status := WorkflowStepStatus.skipped })
          ∧ (s.status ≠ WorkflowStepStatus.in_progress →
              s.status ≠ WorkflowStepStatus.pending → wf1.steps[j]? = some s)) := by
  refine ⟨{ wf with
      status := WorkflowStatus.failed
      updatedAt := now
      completedAt := some now
      steps := (wf.steps.map cancelStepPass1).map cancelStepPass2 }, ?_, rfl, rfl, ?_⟩
  · unfold cancelWorkflow
    rw [hwf]
  · intro j s hs
    have hj : ((wf.steps.map cancelStepPass1).map cancelStepPass2)[j]?
        = some (cancelStepPass2 (cancelStepPass1 s)) := by
      simp [List.getElem?_map, hs]
    refine ⟨?_, ?_, ?_⟩
    · intro hip
      show ((wf.steps.map cancelStepPass1).map cancelStepPass2)[j]? = _
      rw [hj]
      simp [cancelStepPass1, cancelStepPass2, hip]
    · intro hp
      show ((wf.steps.map cancelStepPass1).map cancelStepPass2)[j]? = _
      rw [hj]
      simp [cancelStepPass1, cancelStepPass2, hp]
    · intro h1 h2
      show ((wf.steps.map cancelStepPass1).map cancelStepPass2)[j]? = _
      rw [hj]
      simp [cancelStepPass1, cancelStepPass2, h1, h2]

/-- C5 witness: cancelling the fixture workflow (one in_progress step, two
pending steps) at time 7. -/
theorem cancelWorkflowSpecWitness :
    storeGet c5store "w5" = some c5wf
    ∧ ∃ wf1,
        cancelWorkflow 7 c5store "w5"
          = Except.ok (storeSet c5store "w5" wf1, [BusEvent.workflowCancelled c5wf.id])
        ∧ wf1.status = WorkflowStatus.failed
        ∧ wf1.completedAt = some 7
        ∧ (∀ j : Nat, ∀ s : WorkflowStep, c5wf.steps[j]? = some s →
            (s.status = WorkflowStepStatus.in_progress →
              wf1.steps[j]? = some { s with status := WorkflowStepStatus.failed })
            ∧ (s.status = WorkflowStepStatus.pending →
              wf1.steps[j]? = some { s with status := WorkflowStepStatus.skipped })
            ∧ (s.status ≠ WorkflowStepStatus.in_progress →
                s.status ≠ WorkflowStepStatus.pending → wf1.steps[j]? = some s)) :=
  ⟨rfl, cancelWorkflowSpec 7 c5store "w5" c5wf rfl⟩

/-- C6: every lifecycle operation on a workflow id that is not in the store
throws `Workflow not found` (modelled as `Except.error`); at the
orchestrator's `execute` try/catch boundary this surfaces as a failed
outcome reported to the caller, with the store unchanged and nothing
published. -/
theorem unknownWorkflowIdReportedLocally (reg : List String) (now tid : Nat)
    (st : WStore) (wid : String) (h : storeGet st wid = none) :
    startWorkflow reg now tid st wid = Except.error (workflowNotFound wid)
    ∧ pauseWorkflow now st wid = Except.error (workflowNotFound wid)
    ∧ resumeWorkflow reg now tid st wid = Except.error (workflowNotFound wid)
    ∧ cancelWorkflow now st wid = Except.error (workflowNotFound wid)
    ∧ runLifecycleOp (fun s => startWorkflow reg now tid s wid) st
        = (st, [], { success := false, error := some (workflowNotFound wid) })
    ∧ runLifecycleOp (fun s => pauseWorkflow now s wid) st
        = (st, [], { success := false, error := some (workflowNotFound wid) })
    ∧ runLifecycleOp (fun s => resumeWorkflow reg now tid s wid) st
        = (st, [], { success := false, error := some (workflowNotFound wid) })
    ∧ runLifecycleOp (fun s => cancelWorkflow now s wid) st
        = (st, [], { success := false, error := some (workflowNotFound wid) }) := by
  have h1 : startWorkflow reg now tid st wid = Except.error (workflowNotFound wid) := by
    unfold startWorkflow
    rw [h]
  have h2 : pauseWorkflow now st wid = Except.error (workflowNotFound wid) := by
    unfold pauseWorkflow
    rw [h]
  have h3 : resumeWorkflow reg now tid st wid = Except.error (workflowNotFound wid) := by
    unfold resumeWorkflow
    rw [h]
  have h4 : cancelWorkflow now st wid = Except.error (workflowNotFound wid) := by
    unfold cancelWorkflow
    rw [h]
  refine ⟨h1, h2, h3, h4, ?_, ?_, ?_, ?_⟩ <;>
    simp [runLifecycleOp, h1, h2, h3, h4]

/-- C6 witness: the four lifecycle operations on an empty store and the id
`missing`. -/
theorem unknownWorkflowIdReportedLocallyWitness :
    startWorkflow [] 0 0 [] "missing" = Except.error (workflowNotFound "missing")
    ∧ pauseWorkflow 0 [] "missing" = Except.error (workflowNotFound "missing")
    ∧ resumeWorkflow [] 0 0 [] "missing" = Except.error (workflowNotFound "missing")
    ∧ cancelWorkflow 0 [] "missing" = Except.error (workflowNotFound "missing")
    ∧ runLifecycleOp (fun s => startWorkflow [] 0 0 s "missing") []
        = ([], [], { success := false, error := some (workflowNotFound "missing") })
    ∧ runLifecycleOp (fun s => pauseWorkflow 0 s "missing") []
        = ([], [], { success := false, error := some (workflowNotFound "missing") })
    ∧ runLifecycleOp (fun s => resumeWorkflow [] 0 0 s "missing") []
        = ([], [], { success := false, error := some (workflowNotFound "missing") })
    ∧ runLifecycleOp (fun s => cancelWorkflow 0 s "missing") []
        = ([], [], { success := false, error := some (workflowNotFound "missing") }) :=
  unknownWorkflowIdReportedLocally [] 0 0 [] "missing" rfl

/-- C7: for every task a specialized handler receives, `handleTask`
publishes exactly once, to the task-correlated topic `result:<taskId>`; on
success the published payload is the `execute` result, and when `execute`
throws the payload is a failed result carrying the error message. -/
theorem handleTaskPublishesExactlyOnce
    (exec : AgentTask → Except String TaskResultEvent) (now : Nat)
    (task : AgentTask) :
    ∃ res, handleTask exec now task = [("result:" ++ task.id, res)]
      ∧ (match exec task with
         | Except.ok r => res = r
         | Except.error e =>
             res.taskId = task.id ∧ res.success = false ∧ res.error = some e) := by
  cases h : exec task with
  | ok r =>
    refine ⟨r, ?_, rfl⟩
    unfold handleTask
    rw [h]
  | error e =>
    refine ⟨{ taskId := task.id, success := false, data := [], error := some e, completedAt := now, workflowId := none, stepId := none }, ?_, ⟨rfl, rfl, rfl⟩⟩
    unfold handleTask
    rw [h]

/-- C8: a result event that lacks a workflow or step correlation id, or
whose workflow id is not stored, or whose step id matches no step of its
workflow, is a no-op: the store is returned unchanged and nothing is
published (and, the function being total, no exception propagates). -/
theorem handleTaskResultNoopOnUnresolved (reg : List String) (now tid : Nat)
    (st : WStore) (r : TaskResultEvent)
    (h : r.workflowId = none ∨ r.stepId = none
      ∨ (∃ wid, r.workflowId = some wid ∧ storeGet st wid = none)
      ∨ (∃ wid sid wf, r.workflowId = some wid ∧ r.stepId = some sid
          ∧ storeGet st wid = some wf ∧ ∀ s ∈ wf.steps, s.id ≠ sid)) :
    handleTaskResult reg now tid st r = (st, []) := by
  rcases h with h | h | ⟨wid, hw, hn⟩ | ⟨wid, sid, wf, hw, hs, hwf, hns⟩
  · cases hsid : r.stepId <;> simp [handleTaskResult, h, hsid]
  · cases hwid : r.workflowId <;> simp [handleTaskResult, h, hwid]
  · cases hsid : r.stepId with
    | none => simp [handleTaskResult, hw, hsid]
    | some sid => simp [handleTaskResult, hw, hsid, hn]
  · have hfind : findStepIdx sid wf.steps = none :=
      findStepIdx_eq_none sid wf.steps hns
    simp [handleTaskResult, hw, hs, hwf, hfind]

/-- C8 witness: a result with no correlation ids against the one-workflow
fixture store. -/
theorem handleTaskResultNoopWitness :
    handleTaskResult [] 0 0 c2store0 c8res = (c2store0, []) :=
  handleTaskResultNoopOnUnresolved [] 0 0 c2store0 c8res (Or.inl rfl)

/-- Reading the addressed position after `setStepStatus`. -/
theorem setStepStatus_getElem?_self (wf : Workflow) (i : Nat)
    (stt : WorkflowStepStatus) :
    (setStepStatus wf i stt).steps[i]?
      = (wf.steps[i]?).map (fun s => { s with status := stt }) := by
  show (listModify (fun s : WorkflowStep => { s with status := stt }) i wf.steps)[i]?
    = (wf.steps[i]?).map (fun s => { s with status := stt })
  rw [listModify_getElem? (fun s : WorkflowStep => { s with status := stt }) i i wf.steps,
    if_pos rfl]

/-- Reading any other position after `setStepStatus`. -/
theorem setStepStatus_getElem?_ne (wf : Workflow) (i j : Nat)
    (stt : WorkflowStepStatus) (h : i ≠ j) :
    (setStepStatus wf i stt).steps[j]? = wf.steps[j]? := by
  show (listModify (fun s : WorkflowStep => { s with status := stt }) i wf.steps)[j]?
    = wf.steps[j]?
  rw [listModify_getElem? (fun s : WorkflowStep => { s with status := stt }) i j wf.steps,
    if_neg h]

/-- Branch analysis of `executeWorkflowStep` remembering, on the dispatch
path, that the addressed step's dependencies were met in the input
workflow. -/
theorem executeWorkflowStep_in_progress_cases (reg : List String)
    (now tid : Nat) (wf : Workflow) (i : Nat) :
    (executeWorkflowStep reg now tid wf i).1 = wf
    ∨ (executeWorkflowStep reg now tid wf i).1
        = setStepStatus wf i WorkflowStepStatus.failed
    ∨ (∃ step, wf.steps[i]? = some step
        ∧ areStepDependenciesMet wf step = true
        ∧ (executeWorkflowStep reg now tid wf i).1
            = setStepStatus wf i WorkflowStepStatus.in_progress) := by
  unfold executeWorkflowStep
  split
  · exact Or.inl rfl
  · rename_i step hstep
    split
    · exact Or.inl rfl
    · split
      · rename_i hdeps
        split
        · exact Or.inr (Or.inr ⟨step, hstep, hdeps, rfl⟩)
        · exact Or.inr (Or.inl (setStepStatus_setStepStatus wf i _ _))
      · exact Or.inl rfl

/-- C4: whenever `executeWorkflowStep` — the single dispatch primitive used
by start, resume and the result-driven fan-out — changes any step's status
to in_progress, every id in that step's `dependsOn` named, at that moment,
a step of the same workflow with status completed. -/
theorem inProgressRequiresDepsCompleted (reg : List String) (now tid : Nat)
    (wf : Workflow) (i j : Nat) (s s2 : WorkflowStep)
    (hold : wf.steps[j]? = some s)
    (hnew : ((executeWorkflowStep reg now tid wf i).1).steps[j]? = some s2)
    (hstat : s2.status = WorkflowStepStatus.in_progress)
    (hchg : s.status ≠ WorkflowStepStatus.in_progress) :
    ∀ d ∈ s.dependsOn,
      ∃ t, t ∈ wf.steps ∧ t.id = d ∧ t.status = WorkflowStepStatus.completed := by
  rcases executeWorkflowStep_in_progress_cases reg now tid wf i with
    he | he | ⟨step, hstep, hdeps, he⟩
  · rw [he, hold] at hnew
    cases hnew
    exact absurd hstat hchg
  · rw [he] at hnew
    by_cases hij : i = j
    · subst hij
      rw [setStepStatus_getElem?_self, hold] at hnew
      cases hnew
      simp at hstat
    · rw [setStepStatus_getElem?_ne wf i j _ hij, hold] at hnew
      cases hnew
      exact absurd hstat hchg
  · rw [he] at hnew
    by_cases hij : i = j
    · subst hij
      rw [hstep] at hold
      cases hold
      exact areStepDependenciesMet_spec wf s hdeps
    · rw [setStepStatus_getElem?_ne wf i j _ hij, hold] at hnew
      cases hnew
      exact absurd hstat hchg

/-- C4 witness: dispatching step `B` (which depends on the completed step
`A`) of the fixture workflow sets it in_progress, and its dependency id
names a completed step. -/
theorem inProgressRequiresDepsCompletedWitness :
    c4wf.steps[1]? = some (mkFixStep "B" WorkflowStepStatus.pending ["A"] "document")
    ∧ ((executeWorkflowStep ["document"] 0 0 c4wf 1).1).steps[1]?
        = some { mkFixStep "B" WorkflowStepStatus.pending ["A"] "document" with
            status := WorkflowStepStatus.in_progress }
    ∧ (∀ d ∈ (mkFixStep "B" WorkflowStepStatus.pending ["A"] "document").dependsOn,
        ∃ t, t ∈ c4wf.steps ∧ t.id = d ∧ t.status = WorkflowStepStatus.completed) := by
  refine ⟨rfl, rfl, ?_⟩
  exact inProgressRequiresDepsCompleted ["document"] 0 0 c4wf 1 1
    (mkFixStep "B" WorkflowStepStatus.pending ["A"] "document")
    { mkFixStep "B" WorkflowStepStatus.pending ["A"] "document" with
        status := WorkflowStepStatus.in_progress }
    rfl rfl rfl (by decide)

/-- Reading the addressed position after the result-update modification. -/
theorem listModify_result_getElem? (wf : Workflow) (i : Nat)
    (s : WorkflowStep) (ns : WorkflowStepStatus) (r : TaskResultEvent)
    (hstep : wf.steps[i]? = some s) :
    (listModify (fun q : WorkflowStep => { q with status := ns, result := some r })
      i wf.steps)[i]? = some { s with status := ns, result := some r } := by
  rw [listModify_getElem?
    (fun q : WorkflowStep => { q with status := ns, result := some r }) i i wf.steps,
    if_pos rfl, hstep]
  rfl

/-- The result-driven fan-out only touches pending steps, so a step that is
no longer pending keeps its value through it. -/
theorem runSteps_fanout_getElem? (reg : List String) (now tid : Nat)
    (wfx : Workflow) (i : Nat) (sx : WorkflowStep) (sid : String)
    (hx : wfx.steps[i]? = some sx)
    (hnp : sx.status ≠ WorkflowStepStatus.pending) :
    ((runSteps reg now
      (idxWhere
        (fun q => q.dependsOn.contains sid
          && decide (q.status = WorkflowStepStatus.pending)) wfx.steps)
      wfx tid).1).steps[i]? = some sx := by
  have hnotmem : i ∉ idxWhere
      (fun q => q.dependsOn.contains sid
        && decide (q.status = WorkflowStepStatus.pending)) wfx.steps := by
    intro hmem
    rcases idxWhere_mem _ _ _ hmem with ⟨a, ha, hpa⟩
    rw [hx] at ha
    cases ha
    simp only [Bool.and_eq_true, decide_eq_true_eq] at hpa
    exact hnp hpa.2
  rw [runSteps_getElem?_not_mem reg now _ wfx tid i hnotmem, hx]

/-- In the resolved branch of `handleTaskResult` the final store maps the
workflow id to a workflow whose addressed step carries the status derived
from the result's success flag and the attached result — whatever the
step's previous status and whatever the workflow's previous status. -/
theorem handleTaskResult_updates_step (reg : List String) (now tid : Nat)
    (st : WStore) (r : TaskResultEvent) (wid sid : String) (wf : Workflow)
    (i : Nat) (s : WorkflowStep)
    (hw : r.workflowId = some wid) (hs : r.stepId = some sid)
    (hwf : storeGet st wid = some wf)
    (hi : findStepIdx sid wf.steps = some i)
    (hstep : wf.steps[i]? = some s) :
    ∃ wf2 s2, storeGet (handleTaskResult reg now tid st r).1 wid = some wf2
      ∧ wf2.steps[i]? = some s2
      ∧ s2.status
          = (if r.success then WorkflowStepStatus.completed
             else WorkflowStepStatus.failed)
      ∧ s2.result = some r := by
  by_cases hsuc : r.success = true
  · simp only [handleTaskResult, hw, hs, hwf, hi, hsuc, eq_self_iff_true,
      if_true]
    split
    · exact ⟨_, { s with status := WorkflowStepStatus.completed, result := some r },
        storeGet_storeSet_self wid _ st,
        runSteps_fanout_getElem? reg now tid
          { wf with steps := listModify (fun q : WorkflowStep => { q with status := WorkflowStepStatus.completed, result := some r }) i wf.steps }
          i { s with status := WorkflowStepStatus.completed, result := some r } sid
          (listModify_result_getElem? wf i s WorkflowStepStatus.completed r hstep)
          (by simp),
        rfl, rfl⟩
    · exact ⟨_, { s with status := WorkflowStepStatus.completed, result := some r },
        storeGet_storeSet_self wid _ st,
        runSteps_fanout_getElem? reg now tid
          { wf with steps := listModify (fun q : WorkflowStep => { q with status := WorkflowStepStatus.completed, result := some r }) i wf.steps }
          i { s with status := WorkflowStepStatus.completed, result := some r } sid
          (listModify_result_getElem? wf i s WorkflowStepStatus.completed r hstep)
          (by simp),
        rfl, rfl⟩
  · have hsf : r.success = false := by simpa using hsuc
    simp only [handleTaskResult, hw, hs, hwf, hi, hsf, Bool.false_eq_true,
      if_false]
    split
    · exact ⟨_, { s with status := WorkflowStepStatus.failed, result := some r },
        storeGet_storeSet_self wid _ st,
        listModify_result_getElem? wf i s WorkflowStepStatus.failed r hstep,
        by simp [hsf], rfl⟩
    · exact ⟨_, { s with status := WorkflowStepStatus.failed, result := some r },
        storeGet_storeSet_self wid _ st,
        listModify_result_getElem? wf i s WorkflowStepStatus.failed r hstep,
        by simp [hsf], rfl⟩

/-- C10: whenever a result's correlation ids resolve to a stored workflow
and step, `handleTaskResult` overwrites that step's status from the
result's success flag and attaches the result, with no guard on the step's
or the workflow's current status — so a duplicate or late failed result
rewrites an already-completed step to failed. -/
theorem duplicateResultOverwritesStepStatus (reg : List String)
    (now tid : Nat) (st : WStore) (r : TaskResultEvent) (wid sid : String)
    (wf : Workflow) (i : Nat) (s : WorkflowStep)
    (hw : r.workflowId = some wid) (hs : r.stepId = some sid)
    (hwf : storeGet st wid = some wf)
    (hi : findStepIdx sid wf.steps = some i)
    (hstep : wf.steps[i]? = some s) :
    ∃ wf2 s2, storeGet (handleTaskResult reg now tid st r).1 wid = some wf2
      ∧ wf2.steps[i]? = some s2
      ∧ s2.status
          = (if r.success then WorkflowStepStatus.completed
             else WorkflowStepStatus.failed)
      ∧ s2.result = some r :=
  handleTaskResult_updates_step reg now tid st r wid sid wf i s hw hs hwf hi hstep

/-- C10 witness: a failed duplicate result for the already-completed step
`s1` of the completed fixture workflow flips the step to failed and the
workflow's final status from completed to failed. -/
theorem duplicateResultOverwritesStepStatusWitness :
    storeGet c10store "wa" = some c10wf
    ∧ c10wf.steps[0]?
        = some (mkFixStep "s1" WorkflowStepStatus.completed [] "document")
    ∧ c10wf.status = WorkflowStatus.completed
    ∧ (∃ wf2 s2,
        storeGet (handleTaskResult [] 9 0 c10store c10res).1 "wa" = some wf2
        ∧ wf2.steps[0]? = some s2
        ∧ s2.status
            = (if c10res.success then WorkflowStepStatus.completed
               else WorkflowStepStatus.failed)
        ∧ s2.result = some c10res)
    ∧ (storeGet (handleTaskResult [] 9 0 c10store c10res).1 "wa").map Workflow.status
        = some WorkflowStatus.failed := by
  refine ⟨rfl, rfl, rfl, ?_, rfl⟩
  exact duplicateResultOverwritesStepStatus [] 9 0 c10store c10res "wa" "s1"
    c10wf 0 (mkFixStep "s1" WorkflowStepStatus.completed [] "document")
    rfl rfl rfl rfl rfl

/-- `resumeWorkflow` on any stored workflow — terminal or not — sets its
status back to active, leaving `completedAt` as it was. -/
theorem resumeWorkflow_reactivates (reg : List String) (now tid : Nat)
    (st : WStore) (wid : String) (wf : Workflow)
    (hwf : storeGet st wid = some wf) :
    ∃ pr, resumeWorkflow reg now tid st wid = Except.ok pr
      ∧ ∃ wf2, storeGet pr.1 wid = some wf2
        ∧ wf2.status = WorkflowStatus.active
        ∧ wf2.completedAt = wf.completedAt := by
  unfold resumeWorkflow
  rw [hwf]
  refine ⟨_, rfl,
    (runSteps reg now
      (idxWhere
        (fun s => decide (s.status = WorkflowStepStatus.pending)
          && areStepDependenciesMet { wf with status := WorkflowStatus.active, updatedAt := now } s)
        ({ wf with status := WorkflowStatus.active, updatedAt := now } : Workflow).steps)
      { wf with status := WorkflowStatus.active, updatedAt := now } tid).1,
    storeGet_storeSet_self wid _ st, ?_, ?_⟩
  · exact (runSteps_preserves reg now _ _ tid).1
  · exact (runSteps_preserves reg now _ _ tid).2.1

/-- C2 counterexample: cancel sets `w1` to failed, but a subsequent resume
sets it back to active, and a late successful result for its (skipped) step
even flips the cancelled workflow to completed. -/
theorem cancelThenResumeReactivates :
    (storeGet c2store1 "w1").map Workflow.status = some WorkflowStatus.failed
    ∧ (storeGet c2store2 "w1").map Workflow.status = some WorkflowStatus.active
    ∧ (storeGet c2store3 "w1").map Workflow.status = some WorkflowStatus.completed :=
  ⟨rfl, rfl, rfl⟩

/-- C2 (amended): a cancelled workflow's terminal status is not absorbing —
resume sets any stored workflow, including a failed (cancelled) one, back
to active, and a late result whose ids resolve still overwrites the
correlated step's status from the success flag. -/
theorem terminalNotAbsorbing (reg : List String) (now tid : Nat)
    (st : WStore) (wid sid : String) (wf : Workflow) (i : Nat)
    (s : WorkflowStep) (r : TaskResultEvent)
    (hwf : storeGet st wid = some wf)
    (_hfail : wf.status = WorkflowStatus.failed)
    (hw : r.workflowId = some wid) (hs : r.stepId = some sid)
    (hi : findStepIdx sid wf.steps = some i)
    (hstep : wf.steps[i]? = some s) :
    (∃ pr, resumeWorkflow reg now tid st wid = Except.ok pr
      ∧ ∃ wf2, storeGet pr.1 wid = some wf2
        ∧ wf2.status = WorkflowStatus.active)
    ∧ (∃ wf2 s2,
        storeGet (handleTaskResult reg now tid st r).1 wid = some wf2
        ∧ wf2.steps[i]? = some s2
        ∧ s2.status
            = (if r.success then WorkflowStepStatus.completed
               else WorkflowStepStatus.failed)
        ∧ s2.result = some r) := by
  constructor
  · rcases resumeWorkflow_reactivates reg now tid st wid wf hwf with
      ⟨pr, h1, wf2, h2, h3, _⟩
    exact ⟨pr, h1, wf2, h2, h3⟩
  · exact handleTaskResult_updates_step reg now tid st r wid sid wf i s
      hw hs hwf hi hstep

/-- C2 witness: the cancelled fixture store, resumed and then receiving the
late result for its skipped step `s1`. -/
theorem terminalNotAbsorbingWitness :
    (storeGet c2store1 "w1").map Workflow.status = some WorkflowStatus.failed
    ∧ ((∃ pr, resumeWorkflow [] 2 0 c2store1 "w1" = Except.ok pr
        ∧ ∃ wf2, storeGet pr.1 "w1" = some wf2
          ∧ wf2.status = WorkflowStatus.active)
      ∧ (∃ wf2 s2,
          storeGet (handleTaskResult [] 2 0 c2store1 c2res).1 "w1" = some wf2
          ∧ wf2.steps[0]? = some s2
          ∧ s2.status
              = (if c2res.success then WorkflowStepStatus.completed
                 else WorkflowStepStatus.failed)
          ∧ s2.result = some c2res)) := by
  refine ⟨rfl, ?_⟩
  exact terminalNotAbsorbing [] 2 0 c2store1 "w1" "s1" _ 0 _ c2res
    rfl rfl rfl rfl rfl rfl

/-- C3 counterexample: after cancel-then-resume, the stored workflow has
status active while `completedAt` is still set, so the claimed
set-iff-terminal equivalence fails. -/
theorem completedAtInvariantBrokenByResume :
    (storeGet c3store2 "w1").map (fun w => (w.status, w.completedAt))
      = some (WorkflowStatus.active, some 1)
    ∧ ∃ wf, storeGet c3store2 "w1" = some wf ∧ ¬ completedAtConsistent wf := by
  refine ⟨rfl, _, rfl, ?_⟩
  intro hcon
  rcases hcon.mp rfl with h | h <;> exact WorkflowStatus.noConfusion h

/-- `storeSet` preserves the store-wide `completedAt` invariant when the
stored workflow satisfies it. -/
theorem storeInv_storeSet (st : WStore) (k : String) (wfX : Workflow)
    (hinv : storeInv st) (hX : completedAtConsistent wfX) :
    storeInv (storeSet st k wfX) := by
  intro p hp
  rcases mem_storeSet st k wfX p hp with he | hmem
  · rw [he]
    exact hX
  · exact hinv p hmem

/-- The store part of a conditional pair satisfies the invariant when both
branches do. -/
theorem storeInv_fst_ite (c : Prop) [Decidable c]
    (x y : WStore × List BusEvent) (hx : storeInv x.1) (hy : storeInv y.1) :
    storeInv (if c then x else y).1 := by
  by_cases h : c
  · rwa [if_pos h]
  · rwa [if_neg h]

/-- The `completedAt` invariant only reads the status and `completedAt`
fields. -/
theorem completedAtConsistent_of_eq (wfv wfB : Workflow)
    (h1 : wfv.status = wfB.status) (h2 : wfv.completedAt = wfB.completedAt)
    (h : completedAtConsistent wfB) : completedAtConsistent wfv := by
  unfold completedAtConsistent at h ⊢
  rw [h1, h2]
  exact h

/-- The status written by the completion branch of `handleTaskResult` is
terminal whichever way the any-step-failed test goes. -/
theorem ite_status_cases (c : Prop) [Decidable c] :
    (if c then WorkflowStatus.failed else WorkflowStatus.completed)
        = WorkflowStatus.failed
    ∨ (if c then WorkflowStatus.failed else WorkflowStatus.completed)
        = WorkflowStatus.completed := by
  by_cases h : c
  · exact Or.inl (if_pos h)
  · exact Or.inr (if_neg h)

/-- A workflow with terminal status and stamped `completedAt` satisfies the
`completedAt` invariant. -/
theorem completedAtConsistent_of_terminal (w : Workflow) (n : Nat)
    (h1 : w.status = WorkflowStatus.failed ∨ w.status = WorkflowStatus.completed)
    (h2 : w.completedAt = some n) : completedAtConsistent w := by
  unfold completedAtConsistent
  rw [h2]
  simp only [Option.isSome_some]
  constructor
  · intro _
    rcases h1 with h | h
    · exact Or.inr h
    · exact Or.inl h
  · intro _
    trivial

/-- C3 (amended): the `completedAt` set-iff-terminal invariant holds for
every stored workflow after create, after cancel — with no side condition,
so also when re-cancelling an already-terminal workflow — and after result
handling; start, pause and resume preserve it when the target workflow is
not already terminal, while applied to a terminal workflow they set the
status to active or paused without clearing `completedAt`, so the
equivalence is not maintained there (counterexample: cancel then resume). -/
theorem completedAtInvariantConditional (fresh : Nat → String)
    (reg : List String) (now tid : Nat) (st : WStore) (d : WorkflowDef)
    (r : TaskResultEvent) (wid : String)
    (hinv : storeInv st) :
    storeInv (createWorkflow fresh now st d).1
    ∧ (∀ pr, cancelWorkflow now st wid = Except.ok pr → storeInv pr.1)
    ∧ storeInv (handleTaskResult reg now tid st r).1
    ∧ ((∀ wf, storeGet st wid = some wf →
          wf.status ≠ WorkflowStatus.completed ∧ wf.status ≠ WorkflowStatus.failed) →
        (∀ pr, startWorkflow reg now tid st wid = Except.ok pr → storeInv pr.1)
        ∧ (∀ pr, pauseWorkflow now st wid = Except.ok pr → storeInv pr.1)
        ∧ (∀ pr, resumeWorkflow reg now tid st wid = Except.ok pr → storeInv pr.1)) := by
  refine ⟨?_, ?_, ?_, ?_⟩
  · -- create establishes the invariant for the new entry
    apply storeInv_storeSet st _ _ hinv
    unfold completedAtConsistent
    simp
  · -- cancel establishes it for the cancelled entry
    intro pr hpr
    cases hg : storeGet st wid with
    | none =>
      simp only [cancelWorkflow, hg] at hpr
      exact Except.noConfusion hpr
    | some wf =>
      simp only [cancelWorkflow, hg] at hpr
      injection hpr with h
      rw [← h]
      apply storeInv_storeSet st _ _ hinv
      unfold completedAtConsistent
      simp
  · -- result handling preserves it
    cases hwid : r.workflowId with
    | none =>
      cases hsid : r.stepId <;> simp only [handleTaskResult, hwid] <;> exact hinv
    | some wid2 =>
      cases hsid : r.stepId with
      | none =>
        simp only [handleTaskResult, hwid, hsid]
        exact hinv
      | some sid2 =>
        cases hg : storeGet st wid2 with
        | none =>
          simp only [handleTaskResult, hwid, hsid, hg]
          exact hinv
        | some wf2 =>
          cases hfi : findStepIdx sid2 wf2.steps with
          | none =>
            simp only [handleTaskResult, hwid, hsid, hg, hfi]
            exact hinv
          | some i2 =>
            have hwf2c : completedAtConsistent wf2 :=
              hinv (wid2, wf2) (storeGet_mem st wid2 wf2 hg)
            simp only [handleTaskResult, hwid, hsid, hg, hfi]
            by_cases hsuc : r.success = true
            · simp only [hsuc, eq_self_iff_true, if_true]
              refine storeInv_fst_ite _ _ _ ?_ ?_
              · apply storeInv_storeSet st _ _ hinv
                exact completedAtConsistent_of_terminal _ now (ite_status_cases _) rfl
              · apply storeInv_storeSet st _ _ hinv
                refine completedAtConsistent_of_eq _ _ ?_ ?_ hwf2c
                · exact (runSteps_preserves reg now _ _ tid).1
                · exact (runSteps_preserves reg now _ _ tid).2.1
            · have hsf : r.success = false := by simpa using hsuc
              simp only [hsf, Bool.false_eq_true, if_false]
              refine storeInv_fst_ite _ _ _ ?_ ?_
              · apply storeInv_storeSet st _ _ hinv
                exact completedAtConsistent_of_terminal _ now (ite_status_cases _) rfl
              · apply storeInv_storeSet st _ _ hinv
                exact completedAtConsistent_of_eq _ _ rfl rfl hwf2c
  · -- start, pause and resume preserve it for a non-terminal target
    intro hterm
    have hnone : ∀ wf, storeGet st wid = some wf → wf.completedAt.isSome = false := by
      intro wf hg
      have hc := hinv (wid, wf) (storeGet_mem st wid wf hg)
      cases h2 : wf.completedAt.isSome with
      | false => rfl
      | true =>
        rcases hc.mp h2 with h3 | h3
        · exact absurd h3 (hterm wf hg).1
        · exact absurd h3 (hterm wf hg).2
    refine ⟨?_, ?_, ?_⟩
    · -- start
      intro pr hpr
      cases hg : storeGet st wid with
      | none =>
        simp only [startWorkflow, hg] at hpr
        exact Except.noConfusion hpr
      | some wf =>
        simp only [startWorkflow, hg] at hpr
        injection hpr with h
        rw [← h]
        apply storeInv_storeSet st _ _ hinv
        have hWF1 : completedAtConsistent
            { wf with status := WorkflowStatus.active, updatedAt := now } := by
          unfold completedAtConsistent
          simp [hnone wf hg]
        refine completedAtConsistent_of_eq _ _ ?_ ?_ hWF1
        · exact (runSteps_preserves reg now _ _ tid).1
        · exact (runSteps_preserves reg now _ _ tid).2.1
    · -- pause
      intro pr hpr
      cases hg : storeGet st wid with
      | none =>
        simp only [pauseWorkflow, hg] at hpr
        exact Except.noConfusion hpr
      | some wf =>
        simp only [pauseWorkflow, hg] at hpr
        injection hpr with h
        rw [← h]
        apply storeInv_storeSet st _ _ hinv
        unfold completedAtConsistent
        simp [hnone wf hg]
    · -- resume
      intro pr hpr
      cases hg : storeGet st wid with
      | none =>
        simp only [resumeWorkflow, hg] at hpr
        exact Except.noConfusion hpr
      | some wf =>
        simp only [resumeWorkflow, hg] at hpr
        injection hpr with h
        rw [← h]
        apply storeInv_storeSet st _ _ hinv
        have hWF1 : completedAtConsistent
            { wf with status := WorkflowStatus.active, updatedAt := now } := by
          unfold completedAtConsistent
          simp [hnone wf hg]
        refine completedAtConsistent_of_eq _ _ ?_ ?_ hWF1
        · exact (runSteps_preserves reg now _ _ tid).1
        · exact (runSteps_preserves reg now _ _ tid).2.1

/-- C3 witness: the invariant facts instantiated on a store holding one
active workflow with one pending step, plus the unconditional cancel
conjunct instantiated on an already-cancelled (terminal) store. -/
theorem completedAtInvariantConditionalWitness :
    storeInv c3astore
    ∧ (storeInv (createWorkflow (fun n => "u" ++ toString n) 4 c3astore c3adef).1
      ∧ (∀ pr, cancelWorkflow 4 c3astore "w3" = Except.ok pr → storeInv pr.1)
      ∧ storeInv (handleTaskResult [] 4 0 c3astore c3ares).1
      ∧ ((∀ wf, storeGet c3astore "w3" = some wf →
            wf.status ≠ WorkflowStatus.completed ∧ wf.status ≠ WorkflowStatus.failed) →
          (∀ pr, startWorkflow [] 4 0 c3astore "w3" = Except.ok pr → storeInv pr.1)
          ∧ (∀ pr, pauseWorkflow 4 c3astore "w3" = Except.ok pr → storeInv pr.1)
          ∧ (∀ pr, resumeWorkflow [] 4 0 c3astore "w3" = Except.ok pr → storeInv pr.1)))
    ∧ (∀ wf, storeGet c3astore "w3" = some wf →
        wf.status ≠ WorkflowStatus.completed ∧ wf.status ≠ WorkflowStatus.failed)
    ∧ storeInv c3store1
    ∧ (∀ pr, cancelWorkflow 9 c3store1 "w1" = Except.ok pr → storeInv pr.1) := by
  have hinv : storeInv c3astore := by
    intro p hp
    cases hp with
    | head =>
      unfold completedAtConsistent
      decide
    | tail _ h =>
      exact absurd h (List.not_mem_nil p)
  have hterm : ∀ wf, storeGet c3astore "w3" = some wf →
      wf.status ≠ WorkflowStatus.completed ∧ wf.status ≠ WorkflowStatus.failed := by
    intro wf h
    have h2 : storeGet c3astore "w3" = some c3awf := rfl
    rw [h2] at h
    rw [← Option.some.inj h]
    exact ⟨by decide, by decide⟩
  have hinv1 : storeInv c3store1 := by
    intro p hp
    cases hp with
    | head =>
      unfold completedAtConsistent
      decide
    | tail _ h =>
      exact absurd h (List.not_mem_nil p)
  exact ⟨hinv,
    completedAtInvariantConditional (fun n => "u" ++ toString n) [] 4 0
      c3astore c3adef c3ares "w3" hinv,
    hterm, hinv1,
    (completedAtInvariantConditional (fun n => "u" ++ toString n) [] 9 0
      c3store1 c3adef c3ares "w1" hinv1).2.1⟩

/-- `List.contains` agrees with membership for strings. -/
theorem contains_of_mem {a : String} {l : List String} (h : a ∈ l) :
    l.contains a = true :=
  List.elem_iff.mpr h

/-- On an active workflow, a step without dependencies whose agent type is
registered is dispatched: `executeWorkflowStep` publishes exactly its one
task event. -/
theorem executeWorkflowStep_nodep_events (reg : List String) (now tid : Nat)
    (wf : Workflow) (i : Nat) (s : WorkflowStep)
    (hact : wf.status = WorkflowStatus.active)
    (hstep : wf.steps[i]? = some s) (hdep : s.dependsOn = [])
    (hreg : s.agentType ∈ reg) :
    (executeWorkflowStep reg now tid wf i).2
      = [BusEvent.taskDispatch s.agentType (mkTask tid now wf s)] := by
  have hdeps := areStepDependenciesMet_nil wf s hdep
  have hcont := contains_of_mem hreg
  simp only [executeWorkflowStep, hstep, hact, hdeps, hcont, ne_eq,
    eq_self_iff_true, not_true_eq_false, if_true, if_false, ite_true,
    ite_false, Bool.false_eq_true]

/-- Reading the id of a step through its position. -/
theorem stepIdAt_eq (wf : Workflow) (i : Nat) (s : WorkflowStep)
    (h : wf.steps[i]? = some s) : stepIdAt wf i = s.id := by
  unfold stepIdAt
  rw [h]
  rfl

/-- `stepIdAt` factors through the lookup. -/
theorem stepIdAt_spell (wfX : Workflow) (i : Nat) :
    stepIdAt wfX i = ((wfX.steps[i]?).map (fun s => s.id)).getD "" := by
  unfold stepIdAt
  cases wfX.steps[i]? <;> rfl

/-- Pointwise-equal functions map lists equally. -/
theorem map_congr_own {α β : Type} (f g : α → β) :
    ∀ l : List α, (∀ x ∈ l, f x = g x) → l.map f = l.map g
  | [], _ => rfl
  | a :: l, h => by
    simp only [List.map_cons]
    rw [h a (List.mem_cons_self a l),
      map_congr_own f g l (fun x hx => h x (List.mem_cons_of_mem a hx))]

/-- Running an index list of dependency-free, handler-registered steps on
an active workflow dispatches exactly one task per index, in list order,
carrying the steps' ids. -/
theorem runSteps_nodep_ids (reg : List String) (now : Nat) :
    ∀ (idxs : List Nat) (wf : Workflow) (tid : Nat),
      wf.status = WorkflowStatus.active →
      (∀ i ∈ idxs, ∃ s, wf.steps[i]? = some s
        ∧ s.dependsOn = [] ∧ s.agentType ∈ reg) →
      dispatchedStepIds (runSteps reg now idxs wf tid).2.2
        = idxs.map (fun i => stepIdAt wf i)
  | [], _, _, _, _ => rfl
  | i :: rest, wf, tid, hact, hall => by
    rcases hall i (List.mem_cons_self i rest) with ⟨s, hstep, hdep, hreg⟩
    have hev := executeWorkflowStep_nodep_events reg now tid wf i s hact hstep hdep hreg
    have hpres := executeWorkflowStep_preserves reg now tid wf i
    have hact2 : ((executeWorkflowStep reg now tid wf i).1).status
        = WorkflowStatus.active := hpres.1.trans hact
    have hall2 : ∀ j ∈ rest,
        ∃ s2, ((executeWorkflowStep reg now tid wf i).1).steps[j]? = some s2
          ∧ s2.dependsOn = [] ∧ s2.agentType ∈ reg := by
      intro j hj
      rcases hall j (List.mem_cons_of_mem i hj) with ⟨s2, hs2, hd2, hr2⟩
      have hkey := hpres.2.2 j
      rw [hs2] at hkey
      rcases Option.map_eq_some'.mp hkey with ⟨s3, hs3, hk3⟩
      have hdd : s3.dependsOn = s2.dependsOn := congrArg (fun k => k.2.2) hk3
      have hat : s3.agentType = s2.agentType := congrArg (fun k => k.2.1) hk3
      exact ⟨s3, hs3, hdd.trans hd2, hat ▸ hr2⟩
    have ih := runSteps_nodep_ids reg now rest
      (executeWorkflowStep reg now tid wf i).1 (tid + 1) hact2 hall2
    show dispatchedStepIds
      ((executeWorkflowStep reg now tid wf i).2
        ++ (runSteps reg now rest (executeWorkflowStep reg now tid wf i).1 (tid + 1)).2.2)
      = (i :: rest).map (fun j => stepIdAt wf j)
    unfold dispatchedStepIds
    rw [List.filterMap_append]
    show dispatchedStepIds (executeWorkflowStep reg now tid wf i).2
        ++ dispatchedStepIds (runSteps reg now rest (executeWorkflowStep reg now tid wf i).1 (tid + 1)).2.2
      = (i :: rest).map (fun j => stepIdAt wf j)
    rw [hev, ih]
    have hmapeq : rest.map (fun j => stepIdAt (executeWorkflowStep reg now tid wf i).1 j)
        = rest.map (fun j => stepIdAt wf j) := by
      apply map_congr_own
      intro j _
      unfold stepIdAt
      rw [hpres.2.2 j]
    rw [hmapeq, List.map_cons, stepIdAt_eq wf i s hstep]
    rfl

/-- C9: starting a stored active workflow dispatches exactly one task per
step with an empty `dependsOn`, in the steps' declaration order, carrying
those steps' ids (assuming each such step's agent type is registered, as
the orchestrator's initialization registers every specialized type). -/
theorem startWorkflowDispatchesNodepInOrder (reg : List String)
    (now tid : Nat) (st : WStore) (wid : String) (wf : Workflow)
    (hwf : storeGet st wid = some wf)
    (_hact : wf.status = WorkflowStatus.active)
    (hreg : ∀ s ∈ wf.steps, s.dependsOn = [] → s.agentType ∈ reg) :
    ∃ pr, startWorkflow reg now tid st wid = Except.ok pr
      ∧ dispatchedStepIds pr.2
          = (wf.steps.filter (fun s => s.dependsOn.length == 0)).map (fun s => s.id) := by
  unfold startWorkflow
  rw [hwf]
  refine ⟨_, rfl, ?_⟩
  have hact1 : ({ wf with status := WorkflowStatus.active, updatedAt := now } : Workflow).status
      = WorkflowStatus.active := rfl
  have hall : ∀ i ∈ idxWhere (fun s => s.dependsOn.length == 0)
      ({ wf with status := WorkflowStatus.active, updatedAt := now } : Workflow).steps,
      ∃ s, ({ wf with status := WorkflowStatus.active, updatedAt := now } : Workflow).steps[i]? = some s
        ∧ s.dependsOn = [] ∧ s.agentType ∈ reg := by
    intro i hi
    rcases idxWhere_mem _ _ _ hi with ⟨s, hs, hp⟩
    have hdep : s.dependsOn = [] := by
      have hlen : s.dependsOn.length = 0 := by simpa using hp
      exact List.length_eq_zero.mp hlen
    exact ⟨s, hs, hdep, hreg s (List.getElem?_mem hs) hdep⟩
  rw [runSteps_nodep_ids reg now _ _ tid hact1 hall]
  have hlk := idxWhere_map_lookup (fun s : WorkflowStep => s.dependsOn.length == 0)
    (fun s => s.id) "" wf.steps
  rw [← hlk]
  show (idxWhere (fun s : WorkflowStep => s.dependsOn.length == 0) wf.steps).map
      (fun i => stepIdAt { wf with status := WorkflowStatus.active, updatedAt := now } i)
    = (idxWhere (fun s : WorkflowStep => s.dependsOn.length == 0) wf.steps).map
      (fun i => ((wf.steps[i]?).map (fun s => s.id)).getD "")
  apply map_congr_own
  intro i _
  exact stepIdAt_spell { wf with status := WorkflowStatus.active, updatedAt := now } i

/-- C9 witness: starting the fixture workflow (steps `sa`, `sb` depending
on `sa`, `sc`) dispatches exactly the two dependency-free steps `sa` and
`sc`, in declaration order. -/
theorem startWorkflowDispatchesNodepInOrderWitness :
    storeGet c9store "w9" = some c9wf
    ∧ c9wf.status = WorkflowStatus.active
    ∧ (∀ s ∈ c9wf.steps, s.dependsOn = [] → s.agentType ∈ ["document", "billing"])
    ∧ (∃ pr, startWorkflow ["document", "billing"] 0 0 c9store "w9" = Except.ok pr
        ∧ dispatchedStepIds pr.2
            = (c9wf.steps.filter (fun s => s.dependsOn.length == 0)).map (fun s => s.id))
    ∧ (c9wf.steps.filter (fun s => s.dependsOn.length == 0)).map (fun s => s.id)
        = ["sa", "sc"] := by
  refine ⟨rfl, rfl, by decide, ?_, rfl⟩
  exact startWorkflowDispatchesNodepInOrder ["document", "billing"] 0 0
    c9store "w9" c9wf rfl rfl (by decide)
